import Mathlib

/-!
Shallow embedding of the identity-reconciliation core of the
uxr-painpoint-analysis-tool repository, together with proofs about it.

Sources embedded:
* `src/unnamed/part_000` (persona utilities): `calculatePersonaSimilarity`,
  `mergeTwoPersonas`, `generateUniquePersonaId` (parameterised by the random
  id supplier), `assignUniqueColor`, `generateInitials`, `ensurePersonaAvatar`,
  `mergePersonasWithMapping`, `ensurePersonaColors`.
* `src/unnamed/part_005` (extraction route): the `personaIndex → personaId`
  resolution of pain points and the single-persona fallback.
* `src/app/api/analyze-painpoints/route.ts`: `spreadPriorityMatrix`.

Modelling conventions:
* JavaScript numbers are modelled as `ℚ` (the code does exact decimal
  arithmetic at the scales the claims discuss).
* JavaScript strings are Lean `String`s; `toLowerCase`/`toUpperCase` are the
  ASCII `String.toLower`/`String.toUpper`.
* Optional / possibly-`undefined` fields are `Option`; JS truthiness of a
  string value `s` is `s ≠ ""`, of an optional string it additionally
  requires presence.
* `Math.random()`-derived data is an explicit oracle argument: a fresh-id
  supplier `gen` for persona ids, streams of rational draws for the jitter
  angle (as a `(sin θ, cos θ)` pair) and the edge-buffer repositioning.
* A JS `Record<string,string>` is an association list with one entry per
  key; insertion replaces the previous entry for the key.
* Code that can throw (`undefined.id` on a negative array index) is modelled
  in `Except String`.
-/

/-- JS `a || b` for two definite strings (`""` is falsy). -/
def jsOrS (a b : String) : String := if a = "" then b else a

/-- JS `a || b` where `a` is a possibly-absent string and `b` definite. -/
def jsOrSD (a : Option String) (b : String) : String :=
  match a with
  | some s => if s = "" then b else s
  | none => b

/-- JS `a || b` where both sides are possibly-absent strings. -/
def jsOrOS (a b : Option String) : Option String :=
  match a with
  | some s => if s = "" then b else some s
  | none => b

/-- JS string-truthiness of a possibly-absent string. -/
def truthyS (a : Option String) : Bool :=
  match a with
  | some s => s != ""
  | none => false

/-- `avatar` record of a persona (`src/unnamed/part_005` builds avatars
without a color, so both fields are modelled as possibly absent). -/
structure Avatar where
  color : Option String
  initials : Option String
deriving Repr, DecidableEq

/-- `demographics` record of a persona. -/
structure Demographics where
  age : Option String
  experience : Option String
  department : Option String
  companySize : Option String
deriving Repr, DecidableEq

/-- The `Persona` record (fields as in `ExtractedPersona` of
`src/unnamed/part_005` and the merge code of `src/unnamed/part_000`). -/
structure Persona where
  id : String
  name : String
  role : String
  description : Option String
  goals : Option (List String)
  painPoints : Option (List String)
  demographics : Option Demographics
  avatar : Option Avatar
deriving Repr, DecidableEq

/-- The color palette `PERSONA_COLORS` of `src/unnamed/part_000`. -/
def PERSONA_COLORS : List String :=
  ["#3b82f6", "#10b981", "#f59e0b", "#ef4444", "#8b5cf6",
   "#ec4899", "#14b8a6", "#f97316", "#06b6d4", "#84cc16"]

/-- JS `String.prototype.split` with a one-character separator, on the
character list: split at every occurrence, keeping empty pieces. -/
def splitChar (sep : Char) : List Char → List (List Char)
  | [] => [[]]
  | c :: rest =>
      if c = sep then [] :: splitChar sep rest
      else
        match splitChar sep rest with
        | [] => [[c]]
        | h :: t => (c :: h) :: t

/-- JS `toLowerCase` (the ASCII fragment relevant here), character-wise on
the underlying list so that it is kernel-computable. -/
def strLower (s : String) : String := String.mk (s.data.map Char.toLower)

/-- JS `toUpperCase` (ASCII fragment), character-wise. -/
def strUpper (s : String) : String := String.mk (s.data.map Char.toUpper)

/-- JS `trim`: strip leading and trailing whitespace. -/
def strTrim (s : String) : String :=
  String.mk (((s.data.dropWhile Char.isWhitespace).reverse.dropWhile
    Char.isWhitespace).reverse)

/-- `name.toLowerCase().trim()` as used by `calculatePersonaSimilarity`. -/
def normName (s : String) : String := strTrim (strLower s)

/-- `name.split(' ').filter(part => part.length > 0)`. -/
def nameParts (s : String) : List String :=
  ((splitChar ' ' s.data).map String.mk).filter (fun part => part.length > 0)

/-- `calculatePersonaSimilarity` of `src/unnamed/part_000`: 0.95 on exact
(case-insensitive, trimmed) name equality, 0.9 on matching first and last
name tokens, 0 otherwise. -/
def calculatePersonaSimilarity (persona1 persona2 : Persona) : ℚ :=
  let name1 := normName persona1.name
  let name2 := normName persona2.name
  if name1 = name2 then 95/100
  else
    let name1Parts := nameParts name1
    let name2Parts := nameParts name2
    if 2 ≤ name1Parts.length ∧ 2 ≤ name2Parts.length then
      if name1Parts.headD "" = name2Parts.headD ""
          ∧ name1Parts.getLastD "" = name2Parts.getLastD "" then 9/10
      else 0
    else 0

/-- JS `.filter((x, index, arr) => arr.indexOf(x) === index)`:
keep the first occurrence of each element. -/
def dedupFirstAux (seen : List String) : List String → List String
  | [] => []
  | x :: xs =>
      if x ∈ seen then dedupFirstAux seen xs
      else x :: dedupFirstAux (x :: seen) xs

/-- Deduplication keeping first occurrences. -/
def dedupFirst (l : List String) : List String := dedupFirstAux [] l

/-- `mergeTwoPersonas` of `src/unnamed/part_000`. -/
def mergeTwoPersonas (existing incoming : Persona) : Persona :=
  { id := existing.id
    name := jsOrS incoming.name existing.name
    role := jsOrS incoming.role existing.role
    description := jsOrOS incoming.description existing.description
    goals := some (dedupFirst ((existing.goals.getD []) ++ (incoming.goals.getD [])))
    painPoints := some (dedupFirst ((existing.painPoints.getD []) ++ (incoming.painPoints.getD [])))
    demographics := some
      { age := jsOrOS (incoming.demographics.bind (·.age)) (existing.demographics.bind (·.age))
        experience := jsOrOS (incoming.demographics.bind (·.experience))
          (existing.demographics.bind (·.experience))
        department := jsOrOS (incoming.demographics.bind (·.department))
          (existing.demographics.bind (·.department))
        companySize := jsOrOS (incoming.demographics.bind (·.companySize))
          (existing.demographics.bind (·.companySize)) }
    avatar := incoming.avatar.or existing.avatar }

/-- The used-color set of `assignUniqueColor`:
`existingPersonas.map(p => p.avatar?.color).filter(Boolean)`. -/
def usedColorList (existingPersonas : List Persona) : List String :=
  (existingPersonas.filterMap (fun p => p.avatar.bind (·.color))).filter (fun c => c ≠ "")

/-- `assignUniqueColor` of `src/unnamed/part_000`. -/
def assignUniqueColor (existingPersonas : List Persona) (personaIndex : Nat) : String :=
  match PERSONA_COLORS.find? (fun c => c ∉ usedColorList existingPersonas) with
  | some c => c
  | none => PERSONA_COLORS.getD (personaIndex % PERSONA_COLORS.length) ""

/-- JS `s[0]` inside a template literal: the one-character string, or the
text `"undefined"` when `s` is empty. -/
def jsChar0 (s : String) : String :=
  match s.toList with
  | [] => "undefined"
  | c :: _ => String.mk [c]

/-- `generateInitials` of `src/unnamed/part_000`. -/
def generateInitials (name : String) : String :=
  let names := (splitChar ' ' name.data).map String.mk
  if 1 < names.length then
    strUpper (jsChar0 (names.headD "") ++ jsChar0 (names.getLastD ""))
  else
    strUpper (String.mk (name.data.take 2))

/-- `ensurePersonaAvatar` of `src/unnamed/part_000`. -/
def ensurePersonaAvatar (persona : Persona) (existingPersonas : List Persona)
    (index : Nat) : Persona :=
  let freshAvatar : Avatar :=
    ⟨some (assignUniqueColor existingPersonas index), some (generateInitials persona.name)⟩
  match persona.avatar with
  | none => { persona with avatar := some freshAvatar }
  | some av =>
      if truthyS av.color then
        if truthyS av.initials then persona
        else { persona with avatar := some ⟨av.color, some (generateInitials persona.name)⟩ }
      else { persona with avatar := some freshAvatar }

/-- Result record of `mergePersonasWithMapping`. -/
structure MergePersonasResult where
  personas : List Persona
  idMapping : List (String × String)
deriving Repr, DecidableEq

/-- Overwriting insertion into the `Record<string,string>` id mapping. -/
def mapInsert (m : List (String × String)) (k v : String) : List (String × String) :=
  (k, v) :: m.filter (fun e => e.1 ≠ k)

/-- Is `s` a strict improvement over the current best-match similarity? -/
def betterThan (s : ℚ) (best : Option (Persona × ℚ × Nat)) : Bool :=
  match best with
  | none => true
  | some b => decide (b.2.1 < s)

/-- The best-match loop of `mergePersonasWithMapping`: scan `merged` with a
running index, replacing the best candidate only on similarity `> 0.8` that
strictly exceeds the current best. -/
def bestMatchAux (incoming : Persona) :
    List Persona → Nat → Option (Persona × ℚ × Nat) → Option (Persona × ℚ × Nat)
  | [], _, best => best
  | p :: rest, k, best =>
      let s := calculatePersonaSimilarity p incoming
      bestMatchAux incoming rest (k + 1)
        (if decide (8/10 < s) && betterThan s best then some (p, s, k) else best)

/-- One iteration of the candidate loop of `mergePersonasWithMapping`,
acting on the state `(merged, idMapping)`; `gen` models
`generateUniquePersonaId` (the UUID retry loop). -/
def resolveStep (gen : List Persona → String)
    (st : List Persona × List (String × String)) (incomingPersona : Persona) :
    List Persona × List (String × String) :=
  match bestMatchAux incomingPersona st.1 0 none with
  | some (p, _, i) =>
      (st.1.set i (mergeTwoPersonas p incomingPersona),
        mapInsert st.2 incomingPersona.id p.id)
  | none =>
      if incomingPersona.id ∈ st.1.map (·.id) then
        let newId := gen st.1
        (st.1 ++ [{ incomingPersona with id := newId }],
          mapInsert st.2 incomingPersona.id newId)
      else
        (st.1 ++ [incomingPersona], mapInsert st.2 incomingPersona.id incomingPersona.id)

/-- The final deduplication-and-avatar pass of `mergePersonasWithMapping`:
drop personas whose id was already seen, and run `ensurePersonaAvatar`
against the accumulator with the index in the merged array. -/
def finalDedup : List Persona → List Persona → Nat → List Persona
  | [], acc, _ => acc
  | p :: rest, acc, i =>
      if p.id ∈ acc.map (·.id) then finalDedup rest acc (i + 1)
      else finalDedup rest (acc ++ [ensurePersonaAvatar p acc i]) (i + 1)

/-- `mergePersonasWithMapping` of `src/unnamed/part_000`, parameterised by
the fresh-id supplier `gen`. -/
def mergePersonasWithMapping (gen : List Persona → String)
    (existing incoming : List Persona) : MergePersonasResult :=
  let st := incoming.foldl (resolveStep gen) (existing, [])
  { personas := finalDedup st.1 [] 0, idMapping := st.2 }

/-- Contract of the UUID retry loop `generateUniquePersonaId`: the supplied
id is never an id of the list it is generated against. -/
def FreshGen (gen : List Persona → String) : Prop :=
  ∀ ps : List Persona, gen ps ∉ ps.map (·.id)

/-- Concrete fresh-id supplier used by witnesses: concatenate all ids and
append a character, so the result is longer than every existing id. -/
def concatIds : List Persona → String
  | [] => ""
  | p :: rest => p.id ++ concatIds rest

/-- Executable instance of the fresh-id contract. -/
def genFresh (ps : List Persona) : String := concatIds ps ++ "x"

/-! ## Pain-point attribution (`src/unnamed/part_005`) -/

/-- A raw pain point as parsed from the model response
(`RawPainPoint` of `src/unnamed/part_005`). -/
structure RawPainPoint where
  title : Option String
  details : Option String
  description : Option String
  severity : Option String
  stage : Option String
  source : Option String
  personaIndex : Option Int
deriving Repr, DecidableEq

/-- A constructed pain point of the extraction route. -/
structure PainPointB where
  id : String
  title : String
  details : String
  severity : String
  stage : String
  source : String
  personaId : Option String
deriving Repr, DecidableEq

/-- The ten lifecycle stage ids (the `Stage` enum of `src/app/types`). -/
def stagesList : List String :=
  ["requirements", "alignment", "creation", "review", "presentation",
   "negotiation", "signature", "handoff", "tracking", "retrospective"]

/-- JS array indexing `arr[i]` for a possibly negative index:
`undefined` outside `[0, length)`. -/
def jsIndex (personas : List Persona) (i : Int) : Option Persona :=
  if 0 ≤ i then personas.get? i.toNat else none

/-- The `personaId` computation of the pain-point mapping in
`src/unnamed/part_005`: `(pp.personaIndex !== undefined && pp.personaIndex <
personas.length) ? personas[pp.personaIndex].id : undefined`. Reading `.id`
of `undefined` (a negative in-guard index) throws, modelled as `Except.error`. -/
def assignPersonaId (personas : List Persona) (personaIndex : Option Int) :
    Except String (Option String) :=
  match personaIndex with
  | none => Except.ok none
  | some i =>
      if i < (personas.length : Int) then
        match jsIndex personas i with
        | some p => Except.ok (some p.id)
        | none => Except.error "TypeError: cannot read id of undefined"
      else Except.ok none

/-- Build one pain point of the batch (`painPointsArray.map` body),
`idGen n` standing for the `Date.now`/`Math.random` id of the `n`-th one. -/
def mkPainPoint (idGen : Nat → String) (n : Nat) (pp : RawPainPoint)
    (personaId : Option String) : PainPointB :=
  { id := idGen n
    title := jsOrSD pp.title "Untitled Pain Point"
    details := jsOrSD (jsOrOS pp.details pp.description) ""
    severity := jsOrSD pp.severity "medium"
    stage :=
      match pp.stage with
      | some s => if s ≠ "" ∧ s ∈ stagesList then s else "requirements"
      | none => "requirements"
    source := jsOrSD pp.source "Transcript"
    personaId := personaId }

/-- The pain-point construction loop; the first thrown `TypeError` aborts
the whole batch, as a thrown exception does in the JS `.map`. -/
def buildPainPointsAux (idGen : Nat → String) (personas : List Persona) :
    List RawPainPoint → Nat → Except String (List PainPointB)
  | [], _ => Except.ok []
  | pp :: rest, n =>
      match assignPersonaId personas pp.personaIndex with
      | Except.error e => Except.error e
      | Except.ok pid =>
          match buildPainPointsAux idGen personas rest (n + 1) with
          | Except.error e => Except.error e
          | Except.ok ps => Except.ok (mkPainPoint idGen n pp pid :: ps)

/-- The pain-point construction of `src/unnamed/part_005` (index resolution
included), over a whole raw batch. -/
def buildPainPoints (idGen : Nat → String) (personas : List Persona)
    (raws : List RawPainPoint) : Except String (List PainPointB) :=
  buildPainPointsAux idGen personas raws 0

/-- The single-persona fallback of `src/unnamed/part_005`: when the batch
extracted exactly one persona, pain points with falsy `personaId` get that
persona's id. -/
def singlePersonaFallback (personas : List Persona) (painPoints : List PainPointB) :
    List PainPointB :=
  match personas with
  | [p] =>
      if 0 < (painPoints.filter (fun pp => !truthyS pp.personaId)).length then
        painPoints.map (fun pp => { pp with personaId := some (jsOrSD pp.personaId p.id) })
      else painPoints
  | _ => painPoints

/-! ## Spatial declustering (`spreadPriorityMatrix` of
`src/app/api/analyze-painpoints/route.ts`) -/

/-- A priority-matrix item (the route-local `PriorityItem` interface),
coordinates as exact rationals. -/
structure PriorityItem where
  priority : String
  impact : ℚ
  effort : ℚ
  title : String
  rationale : String
deriving Repr, DecidableEq

/-- The minimum-distance threshold of `spreadPriorityMatrix`. -/
def threshold : ℚ := 3/10

/-- Squared Euclidean distance on `(impact, effort)`. The source compares
`Math.sqrt(dx² + dy²) < threshold`; both sides being nonnegative, this is the
squared comparison used here. -/
def distSq (a b : PriorityItem) : ℚ :=
  (a.impact - b.impact) ^ 2 + (a.effort - b.effort) ^ 2

/-- `Math.max(1, Math.min(5, x))`. -/
def clamp15 (x : ℚ) : ℚ := max 1 (min 5 x)

/-- The loop order of the nested pair loop: `(i, j)` for `i < j`, grouped by
the first component. -/
def allPairs : List Nat → List (Nat × Nat)
  | [] => []
  | x :: xs => (xs.map (fun y => (x, y))) ++ allPairs xs

/-- Indices of the items of one priority group, in array order (the groups
are computed once, before any displacement). -/
def groupIdx (items : List PriorityItem) (pri : String) : List Nat :=
  (List.range items.length).filter
    (fun i => ((items.get? i).map (·.priority)) = some pri)

/-- One pair check of the declustering loop, acting on the state
`(array, next random draw)`; `ang k` is `(sin θ, cos θ)` of the `k`-th drawn
angle. Only a pair closer than the threshold consumes a draw and displaces
(and clamps) the second item. -/
def spreadPair (ang : Nat → ℚ × ℚ) (st : List PriorityItem × Nat) (ij : Nat × Nat) :
    List PriorityItem × Nat :=
  match st.1.get? ij.1, st.1.get? ij.2 with
  | some item1, some item2 =>
      if distSq item1 item2 < threshold ^ 2 then
        let s := (ang st.2).1
        let c := (ang st.2).2
        let offset := threshold / 2
        let item2x := { item2 with
          impact := clamp15 (item2.impact + s * offset)
          effort := clamp15 (item2.effort + c * offset) }
        (st.1.set ij.2 item2x, st.2 + 1)
      else st
  | _, _ => st

/-- The grouped pairwise pass of `spreadPriorityMatrix`: the four priority
groups in object-literal order, each group's pairs in nested-loop order. -/
def spreadGroups (ang : Nat → ℚ × ℚ) (items : List PriorityItem) :
    List PriorityItem × Nat :=
  let pairs :=
    (["immediate", "high", "medium", "low"].map
      (fun pri => allPairs (groupIdx items pri))).flatten
  pairs.foldl (spreadPair ang) (items, 0)

/-- JS `Math.round` for the nonnegative values arising here:
round half toward positive infinity. -/
def jsRound (q : ℚ) : ℤ := ⌊q + 1/2⌋

/-- The edge-buffer width of the edge-correction pass. -/
def edgeBuffer : ℚ := 15/100

/-- The per-item edge correction and rounding of `spreadPriorityMatrix`;
`er m` is the `m`-th `Math.random()` draw of this pass. -/
def edgeFix (er : Nat → ℚ) (item : PriorityItem) (m : Nat) : PriorityItem × Nat :=
  let s1 := if item.impact < 1 + edgeBuffer
    then (1 + edgeBuffer + er m * (2/10), m + 1) else (item.impact, m)
  let s2 := if s1.1 > 5 - edgeBuffer
    then (5 - edgeBuffer - er s1.2 * (2/10), s1.2 + 1) else s1
  let s3 := if item.effort < 1 + edgeBuffer
    then (1 + edgeBuffer + er s2.2 * (2/10), s2.2 + 1) else (item.effort, s2.2)
  let s4 := if s3.1 > 5 - edgeBuffer
    then (5 - edgeBuffer - er s3.2 * (2/10), s3.2 + 1) else s3
  ({ item with
      impact := (jsRound (s2.1 * 10) : ℚ) / 10
      effort := (jsRound (s4.1 * 10) : ℚ) / 10 }, s4.2)

/-- The edge-correction fold over the whole array. -/
def edgePass (er : Nat → ℚ) (items : List PriorityItem) : List PriorityItem :=
  (items.foldl
    (fun (acc : List PriorityItem × Nat) item =>
      let r := edgeFix er item acc.2
      (acc.1 ++ [r.1], r.2))
    ([], 0)).1

/-- `spreadPriorityMatrix` of `src/app/api/analyze-painpoints/route.ts`:
the grouped pairwise declustering pass followed by the global
edge-correction-and-rounding pass. -/
def spreadPriorityMatrix (ang : Nat → ℚ × ℚ) (er : Nat → ℚ)
    (items : List PriorityItem) : List PriorityItem :=
  edgePass er (spreadGroups ang items).1

/-! ## Color repair (`ensurePersonaColors` of `src/unnamed/part_000`) -/

/-- `PERSONA_COLORS[i % PERSONA_COLORS.length]`. -/
def paletteAt (i : Nat) : String :=
  PERSONA_COLORS.getD (i % PERSONA_COLORS.length) ""

/-- Adding to a JS `Set` of strings. -/
def setAdd (s : List String) (c : String) : List String :=
  if c ∈ s then s else s ++ [c]

/-- The cursor-advancing `while` loop of `ensurePersonaColors`: skip palette
positions whose color is already used, giving up once the cursor passes
`2 × palette size`. -/
def scanIdx (used : List String) (idx : Nat) : Nat :=
  if paletteAt idx ∈ used then
    (if PERSONA_COLORS.length * 2 ≤ idx + 1 then idx + 1 else scanIdx used (idx + 1))
  else idx
termination_by PERSONA_COLORS.length * 2 - idx
decreasing_by simp_wf; omega

/-- The `allSameColor` detection of `ensurePersonaColors`: more than one
(truthy) color present and all of them equal. -/
def allSameColorB (personas : List Persona) : Bool :=
  let colors := usedColorList personas
  decide (1 < colors.length) && colors.all (fun c => c = colors.headD "")

/-- One step of the color-assignment `map` of `ensurePersonaColors`, on the
state `(colorIndex, usedColors, output)`. -/
def colorStep (allSame : Bool) (st : Nat × List String × List Persona)
    (persona : Persona) : Nat × List String × List Persona :=
  let curColor := persona.avatar.bind (·.color)
  if truthyS curColor = true ∧ allSame = false ∧ curColor.getD "" ∉ st.2.1 then
    (st.1, setAdd st.2.1 (curColor.getD ""), st.2.2 ++ [persona])
  else
    let j := scanIdx st.2.1 st.1
    let newColor := paletteAt j
    let newInitials := jsOrSD (persona.avatar.bind (·.initials)) (generateInitials persona.name)
    (j + 1, setAdd st.2.1 newColor,
      st.2.2 ++ [{ persona with avatar := some ⟨some newColor, some newInitials⟩ }])

/-- `ensurePersonaColors` of `src/unnamed/part_000`. -/
def ensurePersonaColors (personas : List Persona) : List Persona :=
  let allSame := allSameColorB personas
  (personas.foldl (colorStep allSame) (0, [], [])).2.2

/-- The color of a persona's avatar, when present. -/
def outColor (p : Persona) : Option String := p.avatar.bind (·.color)

/-- Avatar completeness: an avatar with truthy color and truthy initials. -/
def avatarComplete (p : Persona) : Bool :=
  match p.avatar with
  | some av => truthyS av.color && truthyS av.initials
  | none => false

/-! ## Concrete inputs used by witnesses and counterexamples -/

/-- A persona with no avatar. -/
def pNoAv : Persona := ⟨"a", "Ann", "Analyst", none, none, none, none, none⟩

/-- A persona with a complete avatar and id distinct from `pNoAv`. -/
def pFull : Persona :=
  ⟨"b", "Bea Cruz", "PM", none, none, none, none, some ⟨some "#123456", some "BC"⟩⟩

/-- The roster persona of the spec's Sarah Johnson example. -/
def pSarah : Persona := ⟨"p1", "Sarah Johnson", "PM", none, none, none, none, none⟩

/-- The candidate of the spec's Sarah Johnson example. -/
def cSarah : Persona := ⟨"c1", "sarah johnson", "", none, none, none, none, none⟩

/-- First of two identically named roster personas. -/
def pAnn1 : Persona := ⟨"a1", "Ann Lee", "Dev", none, none, none, none, none⟩

/-- Second of two identically named roster personas. -/
def pAnn2 : Persona := ⟨"a2", "Ann Lee", "Ops", none, none, none, none, none⟩

/-- A candidate matching both `pAnn1` and `pAnn2` with confidence 0.95. -/
def cAnn : Persona := ⟨"c9", "ann lee", "QA", none, none, none, none, none⟩

/-- A candidate matching nothing, whose id collides with `pSarah`. -/
def cClash : Persona := ⟨"p1", "Zed Quux", "Dev", none, none, none, none, none⟩

/-- A candidate matching nothing, with a fresh id. -/
def cNew : Persona := ⟨"n1", "Ada Wong", "Dev", none, none, none, none, none⟩

/-- Two personas sharing one color (the repair scenario of C9). -/
def qSame1 : Persona :=
  ⟨"q1", "A B", "r", none, none, none, none, some ⟨some "#3b82f6", some "AB"⟩⟩

/-- Second persona sharing the color of `qSame1`. -/
def qSame2 : Persona :=
  ⟨"q2", "C D", "r", none, none, none, none, some ⟨some "#3b82f6", some "CD"⟩⟩

/-- The raw pain point with a negative `personaIndex`. -/
def rawNeg : RawPainPoint := ⟨none, none, none, none, none, none, some (-1)⟩

/-- A raw pain point with no `personaIndex`. -/
def rawNone : RawPainPoint := ⟨some "t", none, none, none, none, none, none⟩

/-- A trivial id supply for pain points. -/
def idGen0 : Nat → String := fun n => "pp" ++ toString n

/-- A pain point already attributed to `"z"`. -/
def ppAttributed : PainPointB := ⟨"i1", "t1", "", "medium", "requirements", "Transcript", some "z"⟩

/-- A pain point with no attribution. -/
def ppUnattributed : PainPointB := ⟨"i2", "t2", "", "medium", "requirements", "Transcript", none⟩

/-- First item of the spec's declustering example (2.50, 2.50). -/
def itemA : PriorityItem := ⟨"immediate", 5/2, 5/2, "t1", "r1"⟩

/-- Second item of the spec's declustering example (2.51, 2.49). -/
def itemB : PriorityItem := ⟨"immediate", 251/100, 249/100, "t2", "r2"⟩

/-- An interior item used by the C6 witness. -/
def itemC : PriorityItem := ⟨"high", 3, 3, "t3", "r3"⟩

/-- An edge-pinned item used by the C6 witness. -/
def itemD : PriorityItem := ⟨"low", 0, 7, "t4", "r4"⟩

/-- A constant edge-pass random stream. -/
def erHalf : Nat → ℚ := fun _ => 1/2

/-- A rational point of the unit circle, as a constant angle stream. -/
def angUnit : Nat → ℚ × ℚ := fun _ => (3/5, 4/5)

/-- A raw pain point whose `personaIndex` equals the candidate count. -/
def rawBig : RawPainPoint := ⟨none, none, none, none, none, none, some 1⟩

/-! ## Basic lemmas -/

/-- Every id of a list is at most as long as the concatenation of all ids. -/
theorem concatIds_length_le : ∀ (ps : List Persona), ∀ p ∈ ps, p.id.length ≤ (concatIds ps).length := by
  intro ps
  induction ps with
  | nil => intro p hp; cases hp
  | cons q rest ih =>
      intro p hp
      rcases List.mem_cons.mp hp with h | h
      · subst h
        simp [concatIds, String.length_append]
      · have := ih p h
        simp only [concatIds, String.length_append]
        omega

/-- The concrete id supplier satisfies the freshness contract of
`generateUniquePersonaId`. -/
theorem genFresh_fresh : FreshGen genFresh := by
  intro ps h
  obtain ⟨p, hp, hid⟩ := List.mem_map.mp h
  have hle := concatIds_length_le ps p hp
  have hlen : (genFresh ps).length = (concatIds ps).length + 1 := by
    simp [genFresh, String.length_append, show ("x" : String).length = 1 from rfl]
  rw [← hid] at hlen
  omega

/-- `ensurePersonaAvatar` never changes the persona's id. -/
theorem ensurePersonaAvatar_id (p : Persona) (l : List Persona) (i : Nat) :
    (ensurePersonaAvatar p l i).id = p.id := by
  unfold ensurePersonaAvatar
  cases p.avatar with
  | none => rfl
  | some av =>
      by_cases h1 : truthyS av.color = true
      · by_cases h2 : truthyS av.initials = true
        · simp [h1, h2]
        · simp [h1, h2]
      · simp [h1]

/-- A complete avatar is left untouched by `ensurePersonaAvatar`. -/
theorem ensurePersonaAvatar_of_complete (p : Persona) (l : List Persona) (i : Nat)
    (h : avatarComplete p = true) : ensurePersonaAvatar p l i = p := by
  unfold avatarComplete at h
  unfold ensurePersonaAvatar
  cases hav : p.avatar with
  | none => rw [hav] at h; cases h
  | some av =>
      rw [hav] at h
      simp only [Bool.and_eq_true] at h
      simp [h.1, h.2]

/-- `mergeTwoPersonas` keeps the existing id. -/
theorem mergeTwoPersonas_id (e i : Persona) : (mergeTwoPersonas e i).id = e.id := rfl

/-! ## Lemmas about the final dedup pass -/

/-- `finalDedup` keeps every id already accumulated. -/
theorem finalDedup_keeps_acc :
    ∀ (l acc : List Persona) (i : Nat) (a : String),
      a ∈ acc.map Persona.id → a ∈ (finalDedup l acc i).map Persona.id := by
  intro l
  induction l with
  | nil => intro acc i a ha; simpa [finalDedup] using ha
  | cons p rest ih =>
      intro acc i a ha
      unfold finalDedup
      by_cases hmem : p.id ∈ acc.map Persona.id
      · simpa [hmem] using ih acc (i + 1) a ha
      · have : a ∈ (acc ++ [ensurePersonaAvatar p acc i]).map Persona.id := by
          simp only [List.map_append, List.mem_append]
          exact Or.inl ha
        simpa [hmem] using ih _ (i + 1) a this

/-- Every id occurring in the input to `finalDedup` occurs in its output. -/
theorem finalDedup_keeps_ids :
    ∀ (l acc : List Persona) (i : Nat) (a : String),
      a ∈ l.map Persona.id → a ∈ (finalDedup l acc i).map Persona.id := by
  intro l
  induction l with
  | nil => intro acc i a ha; cases ha
  | cons p rest ih =>
      intro acc i a ha
      unfold finalDedup
      rcases List.mem_map.mp ha with ⟨q, hq, hqa⟩
      by_cases hmem : p.id ∈ acc.map Persona.id
      · rcases List.mem_cons.mp hq with h | h
        · subst h
          simp only [hmem, if_true]
          exact finalDedup_keeps_acc rest acc (i + 1) a (hqa ▸ hmem)
        · simp only [hmem, if_true]
          exact ih acc (i + 1) a (hqa ▸ List.mem_map_of_mem Persona.id h)
      · rcases List.mem_cons.mp hq with h | h
        · subst h
          simp only [hmem, if_false]
          refine finalDedup_keeps_acc rest _ (i + 1) a ?_
          simp [ensurePersonaAvatar_id, hqa]
        · simp only [hmem, if_false]
          exact ih _ (i + 1) a (hqa ▸ List.mem_map_of_mem Persona.id h)

/-- The ids produced by `finalDedup` are duplicate-free (given the invariant
on the accumulator). -/
theorem finalDedup_nodup :
    ∀ (l acc : List Persona) (i : Nat), (acc.map Persona.id).Nodup →
      ((finalDedup l acc i).map Persona.id).Nodup := by
  intro l
  induction l with
  | nil => intro acc i h; simpa [finalDedup] using h
  | cons p rest ih =>
      intro acc i h
      unfold finalDedup
      by_cases hmem : p.id ∈ acc.map Persona.id
      · simpa [hmem] using ih acc (i + 1) h
      · have : ((acc ++ [ensurePersonaAvatar p acc i]).map Persona.id).Nodup := by
          simp only [List.map_append, List.map_cons, List.map_nil]
          refine List.Nodup.append h (List.nodup_singleton _) ?_
          intro a ha hb
          simp only [List.mem_singleton, ensurePersonaAvatar_id] at hb
          exact hmem (hb ▸ ha)
        simpa [hmem] using ih _ (i + 1) this

/-- `finalDedup` never produces more personas than accumulator plus input. -/
theorem finalDedup_length_le :
    ∀ (l acc : List Persona) (i : Nat),
      (finalDedup l acc i).length ≤ acc.length + l.length := by
  intro l
  induction l with
  | nil => intro acc i; simp [finalDedup]
  | cons p rest ih =>
      intro acc i
      unfold finalDedup
      by_cases hmem : p.id ∈ acc.map Persona.id
      · have := ih acc (i + 1)
        simp only [hmem, if_true, List.length_cons]
        omega
      · have := ih (acc ++ [ensurePersonaAvatar p acc i]) (i + 1)
        simp only [hmem, if_false]
        simp only [List.length_append, List.length_cons, List.length_nil] at this ⊢
        omega

/-- With duplicate-free input ids disjoint from the accumulator,
`finalDedup` keeps everything. -/
theorem finalDedup_length_of_nodup :
    ∀ (l acc : List Persona) (i : Nat),
      (∀ p ∈ l, p.id ∉ acc.map Persona.id) → (l.map Persona.id).Nodup →
      (finalDedup l acc i).length = acc.length + l.length := by
  intro l
  induction l with
  | nil => intro acc i _ _; simp [finalDedup]
  | cons p rest ih =>
      intro acc i hdisj hnodup
      simp only [List.map_cons, List.nodup_cons] at hnodup
      unfold finalDedup
      have hmem : p.id ∉ acc.map Persona.id := hdisj p (List.mem_cons_self p rest)
      simp only [hmem, if_false]
      have hrest : ∀ q ∈ rest, q.id ∉ (acc ++ [ensurePersonaAvatar p acc i]).map Persona.id := by
        intro q hq
        simp only [List.map_append, List.mem_append, List.map_cons, List.map_nil,
          List.mem_singleton, ensurePersonaAvatar_id]
        rintro (h | h)
        · exact hdisj q (List.mem_cons_of_mem p hq) h
        · exact hnodup.1 (h ▸ List.mem_map_of_mem Persona.id hq)
      have := ih (acc ++ [ensurePersonaAvatar p acc i]) (i + 1) hrest hnodup.2
      simp only [List.length_append, List.length_cons, List.length_nil] at this ⊢
      omega

/-- On complete-avatar, duplicate-free input, `finalDedup` is a no-op append. -/
theorem finalDedup_eq_append :
    ∀ (l acc : List Persona) (i : Nat),
      (∀ p ∈ l, p.id ∉ acc.map Persona.id) → (l.map Persona.id).Nodup →
      (∀ p ∈ l, avatarComplete p = true) →
      finalDedup l acc i = acc ++ l := by
  intro l
  induction l with
  | nil => intro acc i _ _ _; simp [finalDedup]
  | cons p rest ih =>
      intro acc i hdisj hnodup hav
      simp only [List.map_cons, List.nodup_cons] at hnodup
      unfold finalDedup
      have hmem : p.id ∉ acc.map Persona.id := hdisj p (List.mem_cons_self p rest)
      simp only [hmem, if_false]
      rw [ensurePersonaAvatar_of_complete p acc i (hav p (List.mem_cons_self p rest))]
      have hrest : ∀ q ∈ rest, q.id ∉ (acc ++ [p]).map Persona.id := by
        intro q hq
        simp only [List.map_append, List.mem_append, List.map_cons, List.map_nil,
          List.mem_singleton]
        rintro (h | h)
        · exact hdisj q (List.mem_cons_of_mem p hq) h
        · exact hnodup.1 (h ▸ List.mem_map_of_mem Persona.id hq)
      rw [ih (acc ++ [p]) (i + 1) hrest hnodup.2
        (fun q hq => hav q (List.mem_cons_of_mem p hq))]
      simp

/-! ## C4, C5: pain-point attribution -/

/-- C4: a pain point whose `personaIndex` is absent or `≥ candidates.length`
gets no `personaId`, but — contrary to the claim — a negative index is NOT a
normal result: the guard lacks a lower bound, `personas[-1]` is `undefined`,
and reading `.id` of it throws. Evaluation of the embedding at the three
representative inputs. -/
theorem personaIndex_out_of_range_behavior :
    buildPainPoints idGen0 [pSarah] [rawNeg]
        = Except.error "TypeError: cannot read id of undefined"
    ∧ buildPainPoints idGen0 [pSarah] [rawNone]
        = Except.ok [⟨"pp0", "t", "", "medium", "requirements", "Transcript", none⟩]
    ∧ buildPainPoints idGen0 [pSarah] [rawBig]
        = Except.ok [⟨"pp0", "Untitled Pain Point", "", "medium", "requirements",
            "Transcript", none⟩] :=
  ⟨rfl, rfl, rfl⟩

/-- A record update by the unchanged `personaId` is the identity. -/
theorem painPointB_eta (pp : PainPointB) : { pp with personaId := pp.personaId } = pp := rfl

/-- JS `a || b` keeps a truthy `a`. -/
theorem jsOrSD_of_truthy (a : Option String) (b : String) (h : truthyS a = true) :
    some (jsOrSD a b) = a := by
  cases a with
  | none => cases h
  | some s =>
      simp only [truthyS, bne_iff_ne, ne_eq, decide_eq_true_eq] at h
      simp [jsOrSD, h]

/-- JS `a || b` falls back on a falsy `a`. -/
theorem jsOrSD_of_falsy (a : Option String) (b : String) (h : truthyS a = false) :
    jsOrSD a b = b := by
  cases a with
  | none => rfl
  | some s =>
      simp only [truthyS, bne_eq_false_iff_eq] at h
      simp [jsOrSD, h]

/-- C5: with exactly one extracted persona, the fallback assigns that
persona's id to every pain point with falsy `personaId`, keeps already
attributed pain points and all other fields unchanged, and batches with two
or more personas are left untouched. -/
theorem single_persona_fallback_spec :
    (∀ (p : Persona) (pps : List PainPointB),
        ((singlePersonaFallback [p] pps).length = pps.length)
        ∧ (∀ (i : Nat) (pp : PainPointB), pps.get? i = some pp →
            (truthyS pp.personaId = true →
              (singlePersonaFallback [p] pps).get? i = some pp)
            ∧ (truthyS pp.personaId = false →
              (singlePersonaFallback [p] pps).get? i
                = some { pp with personaId := some p.id })))
    ∧ (∀ (personas : List Persona) (pps : List PainPointB),
        2 ≤ personas.length → singlePersonaFallback personas pps = pps) := by
  constructor
  · intro p pps
    by_cases hguard : 0 < (pps.filter (fun pp => !truthyS pp.personaId)).length
    · have hfall : singlePersonaFallback [p] pps
          = pps.map (fun pp => { pp with personaId := some (jsOrSD pp.personaId p.id) }) := by
        simp [singlePersonaFallback, hguard]
      constructor
      · rw [hfall]; exact List.length_map pps _
      · intro i pp hget
        constructor
        · intro htruthy
          rw [hfall, List.get?_map, hget, Option.map_some']
          rw [jsOrSD_of_truthy pp.personaId p.id htruthy, painPointB_eta]
        · intro hfalsy
          rw [hfall, List.get?_map, hget, Option.map_some',
            jsOrSD_of_falsy pp.personaId p.id hfalsy]
    · have hall : singlePersonaFallback [p] pps = pps := by
        simp [singlePersonaFallback, hguard]
      refine ⟨by rw [hall], ?_⟩
      intro i pp hget
      refine ⟨fun _ => by rw [hall]; exact hget, fun hfalsy => ?_⟩
      exfalso
      apply hguard
      have hmem : pp ∈ pps.filter (fun pp => !truthyS pp.personaId) :=
        List.mem_filter.mpr ⟨List.get?_mem hget, by simp [hfalsy]⟩
      exact List.length_pos.mpr (List.ne_nil_of_mem hmem)
  · intro personas pps h2
    match personas with
    | [] => simp at h2
    | [p] => simp at h2
    | a :: b :: rest => rfl

/-- Witness for C5: the unattributed pain point of a concrete two-element
batch with the single persona `pSarah` receives `pSarah`'s id. -/
theorem single_persona_fallback_spec_witness :
    (singlePersonaFallback [pSarah] [ppAttributed, ppUnattributed]).get? 1
      = some { ppUnattributed with personaId := some pSarah.id } :=
  ((single_persona_fallback_spec.1 pSarah [ppAttributed, ppUnattributed]).2 1
    ppUnattributed rfl).2 rfl

/-! ## C8: resolving against an empty candidate list -/

/-- C8 counterexample: a roster whose persona lacks an avatar is not
returned unchanged by `resolve(roster, [])` — the final dedup/avatar pass
fills the avatar in. -/
theorem resolve_empty_counterexample :
    (mergePersonasWithMapping genFresh [pNoAv] []).personas ≠ [pNoAv] := by decide

/-- C8 (amended): `resolve(roster, [])` yields an empty mapping and the
roster run through the dedup/avatar pass; when the roster ids are already
duplicate-free and every avatar is complete, the roster is returned
unchanged. -/
theorem resolve_empty_amended (gen : List Persona → String) (roster : List Persona)
    (h1 : (roster.map Persona.id).Nodup)
    (h2 : ∀ p ∈ roster, avatarComplete p = true) :
    mergePersonasWithMapping gen roster [] = ⟨roster, []⟩ := by
  unfold mergePersonasWithMapping
  simp only [List.foldl_nil]
  rw [finalDedup_eq_append roster [] 0 (by simp) h1 h2]
  simp

/-- Witness for the amended C8 at a concrete complete roster. -/
theorem resolve_empty_amended_witness :
    mergePersonasWithMapping genFresh [pFull] [] = ⟨[pFull], []⟩ :=
  resolve_empty_amended genFresh [pFull] (by decide) (by decide)

/-! ## Lemmas about the similarity score and the best-match loop -/

/-- The similarity score never exceeds 0.95. -/
theorem sim_le_95 (p q : Persona) : calculatePersonaSimilarity p q ≤ 95/100 := by
  unfold calculatePersonaSimilarity
  dsimp only
  split_ifs <;> norm_num

/-- Case-insensitively equal trimmed names score exactly 0.95. -/
theorem sim_of_norm_eq (p c : Persona) (h : normName p.name = normName c.name) :
    calculatePersonaSimilarity p c = 95/100 := by
  unfold calculatePersonaSimilarity
  simp [h]

/-- A similarity score of 0.95 only arises from case-insensitively equal
trimmed names. -/
theorem norm_eq_of_sim95 (p c : Persona)
    (h : calculatePersonaSimilarity p c = 95/100) :
    normName p.name = normName c.name := by
  by_contra hne
  unfold calculatePersonaSimilarity at h
  dsimp only at h
  rw [if_neg hne] at h
  split_ifs at h <;> norm_num at h

/-- The best-match loop leaves its accumulator alone when no entry clears
the 0.8 threshold. -/
theorem bestMatchAux_of_no_match (c : Persona) :
    ∀ (l : List Persona) (k : Nat) (best : Option (Persona × ℚ × Nat)),
      (∀ p ∈ l, calculatePersonaSimilarity p c ≤ 8/10) →
      bestMatchAux c l k best = best := by
  intro l
  induction l with
  | nil => intro k best _; rfl
  | cons p rest ih =>
      intro k best hle
      have hp := hle p (List.mem_cons_self p rest)
      have hcond : decide (8/10 < calculatePersonaSimilarity p c) = false :=
        decide_eq_false (not_lt.mpr hp)
      show bestMatchAux c rest (k + 1) _ = best
      rw [hcond]
      simp only [Bool.false_and, if_false]
      exact ih (k + 1) best (fun q hq => hle q (List.mem_cons_of_mem p hq))

/-- The best-match loop keeps a current best that no later entry strictly
beats above the threshold. -/
theorem bestMatchAux_const (c : Persona) :
    ∀ (l : List Persona) (k : Nat) (b : Persona × ℚ × Nat),
      (∀ p ∈ l, ¬(8/10 < calculatePersonaSimilarity p c
          ∧ b.2.1 < calculatePersonaSimilarity p c)) →
      bestMatchAux c l k (some b) = some b := by
  intro l
  induction l with
  | nil => intro k b _; rfl
  | cons p rest ih =>
      intro k b hno
      have hp := hno p (List.mem_cons_self p rest)
      have hcond : (decide (8/10 < calculatePersonaSimilarity p c)
          && betterThan (calculatePersonaSimilarity p c) (some b)) = false := by
        by_cases h1 : 8/10 < calculatePersonaSimilarity p c
        · have h2 : ¬ b.2.1 < calculatePersonaSimilarity p c := fun h2 => hp ⟨h1, h2⟩
          simp [betterThan, h2]
        · simp [h1]
      show bestMatchAux c rest (k + 1) _ = some b
      rw [hcond]
      simp only [Bool.false_eq_true, if_false]
      exact ih (k + 1) b (fun q hq => hno q (List.mem_cons_of_mem p hq))

/-- Any result of the best-match loop is the accumulator or an element of
the scanned list, at its recorded index, with its own similarity. -/
theorem bestMatchAux_some_spec (c : Persona) :
    ∀ (l : List Persona) (k : Nat) (best : Option (Persona × ℚ × Nat))
      (r : Persona × ℚ × Nat),
      bestMatchAux c l k best = some r →
      best = some r ∨ ∃ j, ∃ (hj : j < l.length),
        l.get ⟨j, hj⟩ = r.1 ∧ r.2.2 = k + j
          ∧ r.2.1 = calculatePersonaSimilarity r.1 c := by
  intro l
  induction l with
  | nil => intro k best r h; exact Or.inl h
  | cons p rest ih =>
      intro k best r h
      have h' : bestMatchAux c rest (k + 1)
          (if decide (8/10 < calculatePersonaSimilarity p c)
              && betterThan (calculatePersonaSimilarity p c) best
            then some (p, calculatePersonaSimilarity p c, k) else best) = some r := h
      rcases ih (k + 1) _ r h' with hbest | ⟨j, hj, hget, hidx, hsim⟩
      · by_cases hcond : (decide (8/10 < calculatePersonaSimilarity p c)
            && betterThan (calculatePersonaSimilarity p c) best) = true
        · rw [if_pos hcond] at hbest
          right
          refine ⟨0, by simp, ?_, ?_, ?_⟩
          · simp [← Option.some_inj.mp hbest]
          · simp [← Option.some_inj.mp hbest]
          · simp [← Option.some_inj.mp hbest]
        · rw [if_neg hcond] at hbest
          exact Or.inl hbest
      · right
        refine ⟨j + 1, by simpa using Nat.succ_lt_succ hj, ?_, by omega, hsim⟩
        simpa using hget

/-- The best-match loop with strict improvement settles on the earliest
index attaining the maximal similarity, provided that index clears the 0.8
threshold and strictly beats whatever accumulator it starts from. -/
theorem bestMatchAux_first_max (c : Persona) :
    ∀ (l : List Persona) (k : Nat) (best : Option (Persona × ℚ × Nat)) (i : Nat)
      (hi : i < l.length),
      8/10 < calculatePersonaSimilarity (l.get ⟨i, hi⟩) c →
      (∀ m (hm : m < i), calculatePersonaSimilarity (l.get ⟨m, hm.trans hi⟩) c
          < calculatePersonaSimilarity (l.get ⟨i, hi⟩) c) →
      (∀ m (hm : m < l.length), calculatePersonaSimilarity (l.get ⟨m, hm⟩) c
          ≤ calculatePersonaSimilarity (l.get ⟨i, hi⟩) c) →
      (∀ b, best = some b → b.2.1 < calculatePersonaSimilarity (l.get ⟨i, hi⟩) c) →
      bestMatchAux c l k best
        = some (l.get ⟨i, hi⟩, calculatePersonaSimilarity (l.get ⟨i, hi⟩) c, k + i) := by
  intro l
  induction l with
  | nil => intro k best i hi; exact absurd hi (Nat.not_lt_zero i)
  | cons p rest ih =>
      intro k best i hi h08 hfirst hmax hbest
      cases i with
      | zero =>
          have hp : (p :: rest).get ⟨0, hi⟩ = p := rfl
          rw [hp] at h08 hmax hbest ⊢
          have hcond : (decide (8/10 < calculatePersonaSimilarity p c)
              && betterThan (calculatePersonaSimilarity p c) best) = true := by
            cases best with
            | none => simp [betterThan, h08]
            | some b => simp [betterThan, h08, hbest b rfl]
          show bestMatchAux c rest (k + 1) _ = _
          rw [if_pos hcond]
          rw [Nat.add_zero]
          refine bestMatchAux_const c rest (k + 1) (p, calculatePersonaSimilarity p c, k) ?_
          rintro q hq ⟨-, hcontra⟩
          obtain ⟨n, hget⟩ := List.mem_iff_get.mp hq
          have hle := hmax (n.1 + 1) (Nat.succ_lt_succ n.2)
          have hcons : (p :: rest).get ⟨n.1 + 1, Nat.succ_lt_succ n.2⟩ = rest.get n := by
            cases n; rfl
          rw [hcons, hget] at hle
          exact absurd hcontra (not_lt.mpr hle)
      | succ j =>
          have hj : j < rest.length := Nat.lt_of_succ_lt_succ hi
          have hcons : (p :: rest).get ⟨j + 1, hi⟩ = rest.get ⟨j, hj⟩ := rfl
          rw [hcons] at h08 hfirst hmax hbest ⊢
          show bestMatchAux c rest (k + 1)
              (if decide (8/10 < calculatePersonaSimilarity p c)
                  && betterThan (calculatePersonaSimilarity p c) best
                then some (p, calculatePersonaSimilarity p c, k) else best) = _
          have hbest' : ∀ b,
              (if decide (8/10 < calculatePersonaSimilarity p c)
                  && betterThan (calculatePersonaSimilarity p c) best
                then some (p, calculatePersonaSimilarity p c, k) else best) = some b →
              b.2.1 < calculatePersonaSimilarity (rest.get ⟨j, hj⟩) c := by
            intro b hb
            split_ifs at hb with hcond
            · have h0 := hfirst 0 (Nat.succ_pos j)
              have : (p :: rest).get ⟨0, (Nat.succ_pos j).trans hi⟩ = p := rfl
              rw [this] at h0
              rw [← Option.some_inj.mp hb]
              exact h0
            · exact hbest b hb
          have happ := ih (k + 1) _ j hj h08
            (fun m hm => hfirst (m + 1) (Nat.succ_lt_succ hm))
            (fun m hm => hmax (m + 1) (Nat.succ_lt_succ hm)) hbest'
          rw [happ]
          have : k + 1 + j = k + (j + 1) := by omega
          rw [this]

/-! ## Resolver-level lemmas -/

/-- Replacing a list entry by one with the same id leaves the id list
unchanged. -/
theorem map_id_set (l : List Persona) (i : Nat) (q : Persona) (hi : i < l.length)
    (hq : q.id = (l.get ⟨i, hi⟩).id) :
    (l.set i q).map Persona.id = l.map Persona.id := by
  simp only [List.get_eq_getElem] at hq
  apply List.ext_get
  · simp
  · intro n h1 h2
    simp only [List.get_eq_getElem, List.getElem_map, List.getElem_set]
    by_cases hn : i = n
    · subst hn
      simp [hq]
    · simp [hn]

/-- The merge branch of the candidate loop. -/
theorem resolveStep_of_match (gen : List Persona → String)
    (st : List Persona × List (String × String)) (c p : Persona) (s : ℚ) (i : Nat)
    (h : bestMatchAux c st.1 0 none = some (p, s, i)) :
    resolveStep gen st c
      = (st.1.set i (mergeTwoPersonas p c), mapInsert st.2 c.id p.id) := by
  unfold resolveStep
  rw [h]

/-- The id-collision append branch of the candidate loop. -/
theorem resolveStep_of_clash (gen : List Persona → String)
    (st : List Persona × List (String × String)) (c : Persona)
    (h : bestMatchAux c st.1 0 none = none) (hc : c.id ∈ st.1.map Persona.id) :
    resolveStep gen st c
      = (st.1 ++ [{ c with id := gen st.1 }], mapInsert st.2 c.id (gen st.1)) := by
  unfold resolveStep
  rw [h]
  simp [hc]

/-- The plain append branch of the candidate loop. -/
theorem resolveStep_of_fresh (gen : List Persona → String)
    (st : List Persona × List (String × String)) (c : Persona)
    (h : bestMatchAux c st.1 0 none = none) (hc : c.id ∉ st.1.map Persona.id) :
    resolveStep gen st c = (st.1 ++ [c], mapInsert st.2 c.id c.id) := by
  unfold resolveStep
  rw [h]
  simp [hc]

/-- Membership in the overwriting insertion. -/
theorem mem_mapInsert (m : List (String × String)) (k v : String)
    (e : String × String) (h : e ∈ mapInsert m k v) : e = (k, v) ∨ e ∈ m := by
  unfold mapInsert at h
  rcases List.mem_cons.mp h with h1 | h1
  · exact Or.inl h1
  · exact Or.inr (List.mem_of_mem_filter h1)

/-- One candidate-loop step preserves the invariant that every mapping value
is an id of the working roster. -/
theorem resolveStep_preserves_mapping (gen : List Persona → String)
    (st : List Persona × List (String × String)) (c : Persona)
    (h : ∀ e ∈ st.2, e.2 ∈ st.1.map Persona.id) :
    ∀ e ∈ (resolveStep gen st c).2, e.2 ∈ (resolveStep gen st c).1.map Persona.id := by
  cases hbm : bestMatchAux c st.1 0 none with
  | some r =>
      obtain ⟨p, s, i⟩ := r
      rw [resolveStep_of_match gen st c p s i hbm]
      rcases bestMatchAux_some_spec c st.1 0 none (p, s, i) hbm with habs | ⟨j, hj, hget, hidx, -⟩
      · cases habs
      dsimp only at hget hidx
      have hij : i = j := by simpa using hidx
      subst hij
      have hids : (st.1.set i (mergeTwoPersonas p c)).map Persona.id
          = st.1.map Persona.id := by
        apply map_id_set st.1 i _ hj
        rw [mergeTwoPersonas_id, ← hget]
      intro e he
      rw [hids]
      rcases mem_mapInsert st.2 c.id p.id e he with h1 | h1
      · rw [h1]
        rw [← hget]
        exact List.mem_map_of_mem Persona.id (List.get_mem st.1 i hj)
      · exact h e h1
  | none =>
      by_cases hc : c.id ∈ st.1.map Persona.id
      · rw [resolveStep_of_clash gen st c hbm hc]
        intro e he
        rcases mem_mapInsert st.2 c.id (gen st.1) e he with h1 | h1
        · rw [h1]
          simp
        · simp only [List.map_append, List.mem_append]
          exact Or.inl (h e h1)
      · rw [resolveStep_of_fresh gen st c hbm hc]
        intro e he
        rcases mem_mapInsert st.2 c.id c.id e he with h1 | h1
        · rw [h1]
          simp
        · simp only [List.map_append, List.mem_append]
          exact Or.inl (h e h1)

/-- The whole candidate loop preserves the mapping-into-roster invariant. -/
theorem foldl_resolveStep_preserves (gen : List Persona → String) :
    ∀ (incoming : List Persona) (st : List Persona × List (String × String)),
      (∀ e ∈ st.2, e.2 ∈ st.1.map Persona.id) →
      ∀ e ∈ (incoming.foldl (resolveStep gen) st).2,
        e.2 ∈ (incoming.foldl (resolveStep gen) st).1.map Persona.id := by
  intro incoming
  induction incoming with
  | nil => intro st h; simpa using h
  | cons c rest ih =>
      intro st h
      simp only [List.foldl_cons]
      exact ih _ (resolveStep_preserves_mapping gen st c h)

/-! ## C1: mapping targets exist in the returned roster -/

/-- C1: for every entry `(candidateId, rosterId)` of the mapping returned by
the resolver, `rosterId` is the id of some persona of the returned roster. -/
theorem mapping_targets_in_roster (gen : List Persona → String)
    (existing incoming : List Persona) :
    ∀ e ∈ (mergePersonasWithMapping gen existing incoming).idMapping,
      e.2 ∈ (mergePersonasWithMapping gen existing incoming).personas.map Persona.id := by
  intro e he
  have h := foldl_resolveStep_preserves gen incoming (existing, [])
    (by intro e he; cases he) e he
  exact finalDedup_keeps_ids _ [] 0 _ h

/-- Witness for C1 at a concrete resolution. -/
theorem mapping_targets_in_roster_witness :
    ("n1", "n1") ∈ (mergePersonasWithMapping genFresh [] [cNew]).idMapping
    ∧ ("n1", "n1").2
        ∈ (mergePersonasWithMapping genFresh [] [cNew]).personas.map Persona.id :=
  ⟨by decide, mapping_targets_in_roster genFresh [] [cNew] ("n1", "n1") (by decide)⟩

/-! ## C2: unique ids and the append behaviour -/

/-- C2: the returned roster never contains two personas with the same id;
a non-matching candidate whose id already occurs in the roster is appended
under a freshly generated unique id with the mapping recording it, and
otherwise keeps its own id and is mapped to itself. -/
theorem resolver_unique_ids_and_append (gen : List Persona → String)
    (hg : FreshGen gen) :
    (∀ existing incoming : List Persona,
      ((mergePersonasWithMapping gen existing incoming).personas.map Persona.id).Nodup)
    ∧ (∀ (roster : List Persona) (c : Persona),
        (∀ p ∈ roster, calculatePersonaSimilarity p c ≤ 8/10) →
        if c.id ∈ roster.map Persona.id then
          (mergePersonasWithMapping gen roster [c]).idMapping = [(c.id, gen roster)]
          ∧ gen roster ∉ roster.map Persona.id
          ∧ ∃ p ∈ (mergePersonasWithMapping gen roster [c]).personas, p.id = gen roster
        else
          (mergePersonasWithMapping gen roster [c]).idMapping = [(c.id, c.id)]
          ∧ ∃ p ∈ (mergePersonasWithMapping gen roster [c]).personas, p.id = c.id) := by
  constructor
  · intro existing incoming
    exact finalDedup_nodup _ [] 0 (by simp)
  · intro roster c hno
    have hbm : bestMatchAux c roster 0 none = none :=
      bestMatchAux_of_no_match c roster 0 none hno
    by_cases hc : c.id ∈ roster.map Persona.id
    · rw [if_pos hc]
      have hstep := resolveStep_of_clash gen (roster, []) c hbm hc
      refine ⟨?_, hg roster, ?_⟩
      · show (resolveStep gen (roster, []) c).2 = _
        rw [hstep]
        rfl
      · have hin : gen roster
            ∈ (roster ++ [{ c with id := gen roster }]).map Persona.id := by
          simp
        have hkeep := finalDedup_keeps_ids (roster ++ [{ c with id := gen roster }])
          [] 0 _ hin
        obtain ⟨p, hp, hpid⟩ := List.mem_map.mp hkeep
        refine ⟨p, ?_, hpid⟩
        show p ∈ finalDedup (resolveStep gen (roster, []) c).1 [] 0
        rw [hstep]
        exact hp
    · rw [if_neg hc]
      have hstep := resolveStep_of_fresh gen (roster, []) c hbm hc
      refine ⟨?_, ?_⟩
      · show (resolveStep gen (roster, []) c).2 = _
        rw [hstep]
        rfl
      · have hin : c.id ∈ (roster ++ [c]).map Persona.id := by simp
        have hkeep := finalDedup_keeps_ids (roster ++ [c]) [] 0 _ hin
        obtain ⟨p, hp, hpid⟩ := List.mem_map.mp hkeep
        refine ⟨p, ?_, hpid⟩
        show p ∈ finalDedup (resolveStep gen (roster, []) c).1 [] 0
        rw [hstep]
        exact hp

/-- Witness for C2: duplicate-free ids of a concrete resolution, and the
collision branch at a candidate whose id equals the roster persona's id. -/
theorem resolver_unique_ids_and_append_witness :
    (((mergePersonasWithMapping genFresh [pSarah] [cNew]).personas.map Persona.id).Nodup)
    ∧ (if cClash.id ∈ [pSarah].map Persona.id then
        (mergePersonasWithMapping genFresh [pSarah] [cClash]).idMapping
            = [(cClash.id, genFresh [pSarah])]
        ∧ genFresh [pSarah] ∉ [pSarah].map Persona.id
        ∧ ∃ p ∈ (mergePersonasWithMapping genFresh [pSarah] [cClash]).personas,
            p.id = genFresh [pSarah]
      else
        (mergePersonasWithMapping genFresh [pSarah] [cClash]).idMapping
            = [(cClash.id, cClash.id)]
        ∧ ∃ p ∈ (mergePersonasWithMapping genFresh [pSarah] [cClash]).personas,
            p.id = cClash.id) :=
  ⟨(resolver_unique_ids_and_append genFresh genFresh_fresh).1 [pSarah] [cNew],
    (resolver_unique_ids_and_append genFresh genFresh_fresh).2 [pSarah] cClash
      (by
        intro p hp
        simp only [List.mem_singleton] at hp
        subst hp
        show (0 : ℚ) ≤ 8/10
        norm_num)⟩

/-! ## C3: exact (case-insensitive) name matches merge -/

/-- C3: resolving a candidate whose trimmed lowercased name equals that of
some roster persona never grows the roster (and keeps its exact size when
roster ids are duplicate-free), and the mapping routes the candidate id to
such a persona's id. -/
theorem exact_name_candidate_merges (gen : List Persona → String)
    (roster : List Persona) (c : Persona)
    (h : ∃ p ∈ roster, normName p.name = normName c.name) :
    ((mergePersonasWithMapping gen roster [c]).personas.length ≤ roster.length)
    ∧ ((roster.map Persona.id).Nodup →
        (mergePersonasWithMapping gen roster [c]).personas.length = roster.length)
    ∧ (∃ p ∈ roster, normName p.name = normName c.name ∧
        (mergePersonasWithMapping gen roster [c]).idMapping = [(c.id, p.id)]) := by
  classical
  obtain ⟨p0, hp0, hn0⟩ := h
  have hex : ∃ n, ((roster.get? n).any
      (fun p => decide (calculatePersonaSimilarity p c = 95/100))) = true := by
    obtain ⟨n, hget⟩ := List.mem_iff_get.mp hp0
    refine ⟨n.1, ?_⟩
    rw [List.get?_eq_get n.2]
    have hs95 : calculatePersonaSimilarity (roster.get n) c = 95/100 := by
      apply sim_of_norm_eq
      rw [hget]
      exact hn0
    simp only [Option.any_some, decide_eq_true_eq]
    simpa using hs95
  set i := Nat.find hex with hidef
  have hQi := Nat.find_spec hex
  cases hgi : roster.get? i with
  | none => rw [hgi] at hQi; cases hQi
  | some pi =>
      rw [hgi] at hQi
      have hsim : calculatePersonaSimilarity pi c = 95/100 := by
        simpa using hQi
      obtain ⟨hi, hgeti⟩ := List.get?_eq_some.mp hgi
      have hsimi : calculatePersonaSimilarity (roster.get ⟨i, hi⟩) c = 95/100 := by
        rw [hgeti]; exact hsim
      have h08 : 8/10 < calculatePersonaSimilarity (roster.get ⟨i, hi⟩) c := by
        rw [hsimi]; norm_num
      have hmax : ∀ m (hm : m < roster.length),
          calculatePersonaSimilarity (roster.get ⟨m, hm⟩) c
            ≤ calculatePersonaSimilarity (roster.get ⟨i, hi⟩) c := by
        intro m hm
        rw [hsimi]
        exact sim_le_95 _ _
      have hfirst : ∀ m (hm : m < i),
          calculatePersonaSimilarity (roster.get ⟨m, hm.trans hi⟩) c
            < calculatePersonaSimilarity (roster.get ⟨i, hi⟩) c := by
        intro m hm
        have hne : calculatePersonaSimilarity (roster.get ⟨m, hm.trans hi⟩) c ≠ 95/100 := by
          intro heq
          have : ((roster.get? m).any
              (fun p => decide (calculatePersonaSimilarity p c = 95/100))) = true := by
            rw [List.get?_eq_get (hm.trans hi)]
            simp only [Option.any_some, decide_eq_true_eq]
            simpa using heq
          exact Nat.find_min hex hm this
        rw [hsimi]
        exact lt_of_le_of_ne (sim_le_95 _ _) hne
      have hbm := bestMatchAux_first_max c roster 0 none i hi h08 hfirst hmax
        (fun b hb => by cases hb)
      have hstep := resolveStep_of_match gen (roster, []) c _ _ _ hbm
      have hids : ((roster.set (0 + i) (mergeTwoPersonas (roster.get ⟨i, hi⟩) c)).map
          Persona.id) = roster.map Persona.id := by
        rw [Nat.zero_add]
        apply map_id_set roster i _ hi
        rw [mergeTwoPersonas_id]
      refine ⟨?_, ?_, ?_⟩
      · show (finalDedup (resolveStep gen (roster, []) c).1 [] 0).length ≤ roster.length
        rw [hstep]
        have := finalDedup_length_le
          (roster.set (0 + i) (mergeTwoPersonas (roster.get ⟨i, hi⟩) c)) [] 0
        simpa [List.length_set] using this
      · intro hnodup
        show (finalDedup (resolveStep gen (roster, []) c).1 [] 0).length = roster.length
        rw [hstep]
        have := finalDedup_length_of_nodup
          (roster.set (0 + i) (mergeTwoPersonas (roster.get ⟨i, hi⟩) c)) [] 0
          (by simp) (by rw [hids]; exact hnodup)
        simpa [List.length_set] using this
      · refine ⟨roster.get ⟨i, hi⟩, List.get_mem roster i hi,
          norm_eq_of_sim95 _ _ hsimi, ?_⟩
        show (resolveStep gen (roster, []) c).2 = _
        rw [hstep]
        rfl

/-- Witness for C3: the spec's Sarah Johnson example — the mapping routes
`"c1"` to `"p1"` and the roster length stays 1. -/
theorem exact_name_candidate_merges_witness :
    (mergePersonasWithMapping genFresh [pSarah] [cSarah]).idMapping = [("c1", "p1")]
    ∧ (mergePersonasWithMapping genFresh [pSarah] [cSarah]).personas.length = 1 := by
  have h := exact_name_candidate_merges genFresh [pSarah] cSarah
    ⟨pSarah, by simp, by decide⟩
  obtain ⟨-, hlen, p, hp, -, hmap⟩ := h
  have hp1 : p = pSarah := by simpa using hp
  subst hp1
  exact ⟨hmap, hlen (by simp)⟩

/-! ## C10: equal-confidence ties resolve to the earliest roster entry -/

/-- C10: when the maximal matching confidence above 0.8 is attained at index
`i` and again at some later index, the candidate is merged into the entry at
`i` — the strict best-match comparison never lets an equal later entry win. -/
theorem tie_resolves_to_earliest (gen : List Persona → String)
    (roster : List Persona) (c : Persona) (i : Nat) (hi : i < roster.length)
    (h08 : 8/10 < calculatePersonaSimilarity (roster.get ⟨i, hi⟩) c)
    (hfirst : ∀ m (hm : m < i),
      calculatePersonaSimilarity (roster.get ⟨m, hm.trans hi⟩) c
        < calculatePersonaSimilarity (roster.get ⟨i, hi⟩) c)
    (hmax : ∀ m (hm : m < roster.length),
      calculatePersonaSimilarity (roster.get ⟨m, hm⟩) c
        ≤ calculatePersonaSimilarity (roster.get ⟨i, hi⟩) c)
    (htie : ∃ j, ∃ (hj : j < roster.length), i < j ∧
      calculatePersonaSimilarity (roster.get ⟨j, hj⟩) c
        = calculatePersonaSimilarity (roster.get ⟨i, hi⟩) c) :
    (mergePersonasWithMapping gen roster [c]).idMapping
      = [(c.id, (roster.get ⟨i, hi⟩).id)] := by
  have hbm := bestMatchAux_first_max c roster 0 none i hi h08 hfirst hmax
    (fun b hb => by cases hb)
  show (resolveStep gen (roster, []) c).2 = _
  rw [resolveStep_of_match gen (roster, []) c _ _ _ hbm]
  rfl

/-- Witness for C10: two roster personas named "Ann Lee" both match the
candidate with confidence 0.95; the mapping routes to the first one. -/
theorem tie_resolves_to_earliest_witness :
    (mergePersonasWithMapping genFresh [pAnn1, pAnn2] [cAnn]).idMapping
      = [("c9", "a1")] := by
  have h := tie_resolves_to_earliest genFresh [pAnn1, pAnn2] cAnn 0 (by norm_num)
    (by show (8 : ℚ)/10 < 95/100; norm_num)
    (fun m hm => absurd hm (Nat.not_lt_zero m))
    (by
      intro m hm
      show calculatePersonaSimilarity ([pAnn1, pAnn2].get ⟨m, hm⟩) cAnn ≤ 95/100
      exact sim_le_95 _ _)
    ⟨1, by norm_num, by norm_num, by rfl⟩
  exact h

/-! ## C9: color repair produces pairwise-distinct colors -/

/-- Membership is preserved by set insertion. -/
theorem mem_setAdd_of_mem (s : List String) (c x : String) (h : x ∈ s) :
    x ∈ setAdd s c := by
  unfold setAdd
  split_ifs
  · exact h
  · exact List.mem_append_left _ h

/-- The inserted element is a member. -/
theorem mem_setAdd_self (s : List String) (c : String) : c ∈ setAdd s c := by
  unfold setAdd
  split_ifs with h
  · exact h
  · exact List.mem_append_right _ (List.mem_singleton.mpr rfl)

/-- Members of the insertion come from the set or are the new element. -/
theorem mem_setAdd (s : List String) (c x : String) (h : x ∈ setAdd s c) :
    x = c ∨ x ∈ s := by
  unfold setAdd at h
  split_ifs at h
  · exact Or.inr h
  · rcases List.mem_append.mp h with h1 | h1
    · exact Or.inr h1
    · exact Or.inl (List.mem_singleton.mp h1)

/-- Set insertion preserves duplicate-freedom. -/
theorem setAdd_nodup (s : List String) (c : String) (h : s.Nodup) :
    (setAdd s c).Nodup := by
  unfold setAdd
  split_ifs with hc
  · exact h
  · exact List.Nodup.append h (List.nodup_singleton c)
      (by intro a ha hb; rw [List.mem_singleton.mp hb] at ha; exact hc ha)

/-- Inserting a new element adds exactly one entry. -/
theorem setAdd_length_new (s : List String) (c : String) (h : c ∉ s) :
    (setAdd s c).length = s.length + 1 := by
  unfold setAdd
  rw [if_neg h]
  simp

/-- The palette length, by computation. -/
theorem palette_length : PERSONA_COLORS.length = 10 := rfl

/-- The palette entries are pairwise distinct. -/
theorem palette_nodup : PERSONA_COLORS.Nodup := by decide

/-- Every palette position is a palette member. -/
theorem paletteAt_mem (i : Nat) : paletteAt i ∈ PERSONA_COLORS := by
  unfold paletteAt
  have h : i % PERSONA_COLORS.length < PERSONA_COLORS.length :=
    Nat.mod_lt _ (by rw [palette_length]; omega)
  rw [List.getD_eq_getElem _ _ h]
  exact List.getElem_mem h

/-- A palette member is `paletteAt` of its index. -/
theorem mem_palette_paletteAt (c : String) (h : c ∈ PERSONA_COLORS) :
    ∃ r, r < PERSONA_COLORS.length ∧ paletteAt r = c := by
  obtain ⟨r, hr, hrc⟩ := List.mem_iff_getElem.mp h
  refine ⟨r, hr, ?_⟩
  unfold paletteAt
  rw [Nat.mod_eq_of_lt hr, List.getD_eq_getElem _ _ hr]
  exact hrc

/-- If every palette color is in a duplicate-free set, it has at least 10
elements. -/
theorem length_ge_of_all_palette (used : List String)
    (h : ∀ c ∈ PERSONA_COLORS, c ∈ used) : 10 ≤ used.length := by
  have hsub : PERSONA_COLORS.toFinset ⊆ used.toFinset := by
    intro c hc
    exact List.mem_toFinset.mpr (h c (List.mem_toFinset.mp hc))
  have h1 : PERSONA_COLORS.toFinset.card = 10 := by
    rw [List.toFinset_card_of_nodup palette_nodup, palette_length]
  have h2 := Finset.card_le_card hsub
  have h3 := used.toFinset_card_le
  omega

/-- The cursor scan: given the everything-below-the-cursor invariant and a
free palette color, it stops (without hitting the 2×K cap) at a cursor
position whose palette color is unused, preserving the invariant. -/
theorem scanIdx_spec (used : List String)
    (hfree : ∃ c ∈ PERSONA_COLORS, c ∉ used) :
    ∀ (fuel idx : Nat), PERSONA_COLORS.length * 2 - idx ≤ fuel →
      (∀ j, j < idx → paletteAt j ∈ used) →
      paletteAt (scanIdx used idx) ∉ used
      ∧ (∀ j, j < scanIdx used idx → paletteAt j ∈ used)
      ∧ idx ≤ scanIdx used idx := by
  have hidx9 : ∀ idx : Nat, (∀ j, j < idx → paletteAt j ∈ used) → idx ≤ 9 := by
    intro idx hinv
    by_contra hgt
    push_neg at hgt
    obtain ⟨c, hc, hcnot⟩ := hfree
    obtain ⟨r, hr, hrc⟩ := mem_palette_paletteAt c hc
    rw [palette_length] at hr
    exact hcnot (hrc ▸ hinv r (by omega))
  intro fuel
  induction fuel with
  | zero =>
      intro idx hfuel hinv
      have := hidx9 idx hinv
      rw [palette_length] at hfuel
      omega
  | succ n ih =>
      intro idx hfuel hinv
      have h9 := hidx9 idx hinv
      unfold scanIdx
      by_cases hmem : paletteAt idx ∈ used
      · rw [if_pos hmem]
        have hcap : ¬ (PERSONA_COLORS.length * 2 ≤ idx + 1) := by
          rw [palette_length]
          omega
        rw [if_neg hcap]
        have hinv' : ∀ j, j < idx + 1 → paletteAt j ∈ used := by
          intro j hj
          rcases Nat.lt_succ_iff_lt_or_eq.mp hj with h | h
          · exact hinv j h
          · exact h ▸ hmem
        have hres := ih (idx + 1) (by omega) hinv'
        refine ⟨hres.1, hres.2.1, ?_⟩
        omega
      · rw [if_neg hmem]
        exact ⟨hmem, hinv, le_refl idx⟩

/-- A truthy optional string is a present non-empty string. -/
theorem truthyS_some (o : Option String) (h : truthyS o = true) :
    ∃ s, o = some s ∧ s ≠ "" := by
  cases o with
  | none => cases h
  | some s =>
      refine ⟨s, rfl, ?_⟩
      simpa [truthyS] using h

/-- One color-assignment step preserves the scan invariant, the used-color
set discipline, and extends the output by one persona with a fresh color. -/
theorem colorStep_inv (allSame : Bool) (st : Nat × List String × List Persona)
    (p : Persona)
    (hJ : ∀ j, j < st.1 → paletteAt j ∈ st.2.1)
    (hnd : st.2.1.Nodup)
    (hlen : st.2.1.length ≤ st.2.2.length)
    (hcols : ∀ q ∈ st.2.2, ∃ c, outColor q = some c ∧ c ∈ st.2.1)
    (hcnd : (st.2.2.map outColor).Nodup)
    (hsmall : st.2.2.length + 1 ≤ PERSONA_COLORS.length) :
    (∀ j, j < (colorStep allSame st p).1 → paletteAt j ∈ (colorStep allSame st p).2.1)
    ∧ (colorStep allSame st p).2.1.Nodup
    ∧ (colorStep allSame st p).2.1.length ≤ (colorStep allSame st p).2.2.length
    ∧ (∀ q ∈ (colorStep allSame st p).2.2,
        ∃ c, outColor q = some c ∧ c ∈ (colorStep allSame st p).2.1)
    ∧ ((colorStep allSame st p).2.2.map outColor).Nodup
    ∧ (colorStep allSame st p).2.2.length = st.2.2.length + 1 := by
  have hfresh_nodup : ∀ (cNew : String), cNew ∉ st.2.1 →
      ((st.2.2.map outColor ++ [some cNew]).Nodup) := by
    intro cNew hnotmem
    refine List.Nodup.append hcnd (List.nodup_singleton _) ?_
    intro a ha hb
    rw [List.mem_singleton.mp hb] at ha
    obtain ⟨q, hq, hqc⟩ := List.mem_map.mp ha
    obtain ⟨cq, hcq, hcqmem⟩ := hcols q hq
    rw [hcq] at hqc
    exact hnotmem ((Option.some_inj.mp hqc) ▸ hcqmem)
  unfold colorStep
  dsimp only
  by_cases hcond : truthyS (p.avatar.bind (·.color)) = true ∧ allSame = false
      ∧ (p.avatar.bind (·.color)).getD "" ∉ st.2.1
  · rw [if_pos hcond]
    obtain ⟨ht, -, hnotmem⟩ := hcond
    obtain ⟨s, hsome, hsne⟩ := truthyS_some _ ht
    have hgetd : (p.avatar.bind (·.color)).getD "" = s := by rw [hsome]; rfl
    refine ⟨?_, setAdd_nodup _ _ hnd, ?_, ?_, ?_, by simp⟩
    · intro j hj
      exact mem_setAdd_of_mem _ _ _ (hJ j hj)
    · rw [setAdd_length_new _ _ hnotmem]
      simp only [List.length_append, List.length_cons, List.length_nil]
      omega
    · intro q hq
      rcases List.mem_append.mp hq with h1 | h1
      · obtain ⟨cq, hcq, hcqmem⟩ := hcols q h1
        exact ⟨cq, hcq, mem_setAdd_of_mem _ _ _ hcqmem⟩
      · rw [List.mem_singleton.mp h1]
        refine ⟨s, ?_, ?_⟩
        · unfold outColor
          rw [hsome]
        · rw [← hgetd]
          exact mem_setAdd_self _ _
    · rw [List.map_append]
      simp only [List.map_cons, List.map_nil]
      have : outColor p = some s := by unfold outColor; rw [hsome]
      rw [this]
      rw [hgetd] at hnotmem
      exact hfresh_nodup s hnotmem
  · rw [if_neg hcond]
    have hfree : ∃ c ∈ PERSONA_COLORS, c ∉ st.2.1 := by
      by_contra hall
      push_neg at hall
      have := length_ge_of_all_palette st.2.1 hall
      rw [palette_length] at hsmall
      omega
    have hscan := scanIdx_spec st.2.1 hfree (PERSONA_COLORS.length * 2) st.1
      (by omega) hJ
    refine ⟨?_, setAdd_nodup _ _ hnd, ?_, ?_, ?_, by simp⟩
    · intro j hj
      rcases Nat.lt_succ_iff_lt_or_eq.mp hj with h1 | h1
      · exact mem_setAdd_of_mem _ _ _ (hscan.2.1 j h1)
      · rw [h1]
        exact mem_setAdd_self _ _
    · rw [setAdd_length_new _ _ hscan.1]
      simp only [List.length_append, List.length_cons, List.length_nil]
      omega
    · intro q hq
      rcases List.mem_append.mp hq with h1 | h1
      · obtain ⟨cq, hcq, hcqmem⟩ := hcols q h1
        exact ⟨cq, hcq, mem_setAdd_of_mem _ _ _ hcqmem⟩
      · rw [List.mem_singleton.mp h1]
        exact ⟨paletteAt (scanIdx st.2.1 st.1), rfl, mem_setAdd_self _ _⟩
    · rw [List.map_append]
      simp only [List.map_cons, List.map_nil]
      have : outColor { p with avatar := some ⟨some (paletteAt (scanIdx st.2.1 st.1)),
          some (jsOrSD (p.avatar.bind (·.initials)) (generateInitials p.name))⟩ }
          = some (paletteAt (scanIdx st.2.1 st.1)) := rfl
      rw [this]
      exact hfresh_nodup _ hscan.1

/-- The whole color-assignment fold keeps output colors pairwise distinct
while the roster fits the palette. -/
theorem colorFold_inv (allSame : Bool) :
    ∀ (rest : List Persona) (st : Nat × List String × List Persona),
      (∀ j, j < st.1 → paletteAt j ∈ st.2.1) → st.2.1.Nodup →
      st.2.1.length ≤ st.2.2.length →
      (∀ q ∈ st.2.2, ∃ c, outColor q = some c ∧ c ∈ st.2.1) →
      ((st.2.2.map outColor).Nodup) →
      st.2.2.length + rest.length ≤ PERSONA_COLORS.length →
      (((rest.foldl (colorStep allSame) st).2.2.map outColor).Nodup) := by
  intro rest
  induction rest with
  | nil =>
      intro st _ _ _ _ hcnd _
      simpa using hcnd
  | cons p rest ih =>
      intro st hJ hnd hlen hcols hcnd hsmall
      simp only [List.length_cons] at hsmall
      have hstep := colorStep_inv allSame st p hJ hnd hlen hcols hcnd (by omega)
      simp only [List.foldl_cons]
      exact ih (colorStep allSame st p) hstep.1 hstep.2.1 hstep.2.2.1 hstep.2.2.2.1
        hstep.2.2.2.2.1 (by omega)

/-- C9: for a roster of at most palette size (K = 10), the roster returned
by `ensurePersonaColors` carries pairwise-distinct avatar colors. -/
theorem unique_colors_small_roster (personas : List Persona)
    (h : personas.length ≤ PERSONA_COLORS.length) :
    ((ensurePersonaColors personas).map outColor).Nodup := by
  unfold ensurePersonaColors
  exact colorFold_inv (allSameColorB personas) personas (0, [], [])
    (fun j hj => absurd hj (Nat.not_lt_zero j)) List.nodup_nil (by simp)
    (by intro q hq; cases hq) (by simp) (by simpa using h)

/-- Witness for C9: two personas sharing one color get distinct colors. -/
theorem unique_colors_small_roster_witness :
    ((ensurePersonaColors [qSame1, qSame2]).map outColor).Nodup :=
  unique_colors_small_roster [qSame1, qSame2] (by decide)

/-! ## C6, C7: spatial declustering -/

/-- The clamp always lands in `[1, 5]`. -/
theorem clamp15_bounds (x : ℚ) : 1 ≤ clamp15 x ∧ clamp15 x ≤ 5 := by
  unfold clamp15
  constructor
  · exact le_max_left 1 _
  · exact max_le (by norm_num) (min_le_left 5 x)

/-- The clamp is the identity inside `[1, 5]`. -/
theorem clamp15_eq_self (x : ℚ) (h1 : 1 ≤ x) (h5 : x ≤ 5) : clamp15 x = x := by
  unfold clamp15
  rw [min_eq_right h5, max_eq_right h1]

/-- Rounding a value of `[1.15, 4.85]` to one decimal stays in `[1, 5]` and
is an integer number of tenths. -/
theorem jsRound_coord (v : ℚ) (hlo : 23/20 ≤ v) (hhi : v ≤ 97/20) :
    1 ≤ (jsRound (v * 10) : ℚ)/10 ∧ (jsRound (v * 10) : ℚ)/10 ≤ 5
    ∧ ∃ a : ℤ, (jsRound (v * 10) : ℚ)/10 = (a : ℚ)/10 := by
  have h12 : (12 : ℤ) ≤ jsRound (v * 10) := by
    unfold jsRound
    refine Int.le_floor.mpr ?_
    push_cast
    linarith
  have h49 : jsRound (v * 10) ≤ 49 := by
    have hfl : (jsRound (v * 10) : ℚ) ≤ v * 10 + 1/2 := Int.floor_le _
    have : (jsRound (v * 10) : ℚ) ≤ 49 := by linarith
    exact_mod_cast this
  have h12q : (12 : ℚ) ≤ (jsRound (v * 10) : ℚ) := by exact_mod_cast h12
  have h49q : ((jsRound (v * 10) : ℚ)) ≤ 49 := by exact_mod_cast h49
  exact ⟨by linarith, by linarith, ⟨jsRound (v * 10), rfl⟩⟩

/-- The edge-correction-and-rounding step leaves both coordinates in `[1,5]`
and rounded to tenths, for any current coordinates. -/
theorem edgeFix_spec (er : Nat → ℚ) (her : ∀ n, 0 ≤ er n ∧ er n < 1)
    (item : PriorityItem) (m : Nat) :
    (1 ≤ (edgeFix er item m).1.impact ∧ (edgeFix er item m).1.impact ≤ 5
      ∧ (∃ a : ℤ, (edgeFix er item m).1.impact = (a : ℚ)/10))
    ∧ (1 ≤ (edgeFix er item m).1.effort ∧ (edgeFix er item m).1.effort ≤ 5
      ∧ (∃ a : ℤ, (edgeFix er item m).1.effort = (a : ℚ)/10)) := by
  have h0 := her m
  have h1 := her (m + 1)
  have h2 := her (m + 2)
  have h3 := her (m + 3)
  unfold edgeFix
  dsimp only
  split_ifs <;>
    exact ⟨jsRound_coord _ (by unfold edgeBuffer at *; linarith)
        (by unfold edgeBuffer at *; linarith),
      jsRound_coord _ (by unfold edgeBuffer at *; linarith)
        (by unfold edgeBuffer at *; linarith)⟩

/-- Every member of the edge-pass output satisfies any predicate that holds
of every `edgeFix` result and of the accumulator. -/
theorem edgePass_fold_pred (er : Nat → ℚ) (P : PriorityItem → Prop)
    (hstep : ∀ item m, P (edgeFix er item m).1) :
    ∀ (items : List PriorityItem) (acc : List PriorityItem × Nat),
      (∀ q ∈ acc.1, P q) →
      ∀ p ∈ (items.foldl
        (fun (acc : List PriorityItem × Nat) item =>
          let r := edgeFix er item acc.2
          (acc.1 ++ [r.1], r.2)) acc).1, P p := by
  intro items
  induction items with
  | nil => intro acc hacc p hp; exact hacc p hp
  | cons item rest ih =>
      intro acc hacc p hp
      simp only [List.foldl_cons] at hp
      refine ih _ ?_ p hp
      intro q hq
      rcases List.mem_append.mp hq with h1 | h1
      · exact hacc q h1
      · rw [List.mem_singleton.mp h1]
        exact hstep item acc.2

/-- C6: every item returned by `spreadPriorityMatrix` has both coordinates
inside `[1, 5]`, each an exact multiple of one tenth, for every outcome of
the random draws. -/
theorem spread_output_bounds (ang : Nat → ℚ × ℚ) (er : Nat → ℚ)
    (her : ∀ n, 0 ≤ er n ∧ er n < 1) (items : List PriorityItem) :
    ∀ p ∈ spreadPriorityMatrix ang er items,
      (1 ≤ p.impact ∧ p.impact ≤ 5 ∧ 1 ≤ p.effort ∧ p.effort ≤ 5)
      ∧ (∃ a : ℤ, p.impact = (a : ℚ)/10) ∧ (∃ b : ℤ, p.effort = (b : ℚ)/10) := by
  intro p hp
  have h := edgePass_fold_pred er
    (fun q => (1 ≤ q.impact ∧ q.impact ≤ 5 ∧ 1 ≤ q.effort ∧ q.effort ≤ 5)
      ∧ (∃ a : ℤ, q.impact = (a : ℚ)/10) ∧ (∃ b : ℤ, q.effort = (b : ℚ)/10))
    (fun item m => by
      obtain ⟨⟨hi1, hi5, hia⟩, he1, he5, hea⟩ := edgeFix_spec er her item m
      exact ⟨⟨hi1, hi5, he1, he5⟩, hia, hea⟩)
    (spreadGroups ang items).1 ([], 0) (by intro q hq; cases hq) p hp
  exact h

/-- Witness for C6 at a concrete item list (one interior, one edge-pinned
out-of-range item) and concrete random streams. -/
theorem spread_output_bounds_witness :
    (spreadPriorityMatrix angUnit erHalf [itemC, itemD]).Forall
      (fun p => (1 ≤ p.impact ∧ p.impact ≤ 5 ∧ 1 ≤ p.effort ∧ p.effort ≤ 5)
        ∧ (∃ a : ℤ, p.impact = (a : ℚ)/10) ∧ (∃ b : ℤ, p.effort = (b : ℚ)/10)) :=
  List.forall_iff_forall_mem.mpr
    (spread_output_bounds angUnit erHalf (fun n => by unfold erHalf; norm_num)
      [itemC, itemD])

/-- Evaluation of the grouped pass on the spec's two-item example: the pair
is closer than the threshold, so the second item is displaced by
`(sin θ, cos θ) · threshold/2` and clamped; one random draw is consumed. -/
theorem spreadGroups_example (s c : ℚ) :
    spreadGroups (fun _ => (s, c)) [itemA, itemB]
      = ([itemA, { itemB with
          impact := clamp15 (itemB.impact + s * (threshold / 2)),
          effort := clamp15 (itemB.effort + c * (threshold / 2)) }], 1) := by
  unfold spreadGroups
  dsimp only
  have hpairs : (["immediate", "high", "medium", "low"].map
      (fun pri => allPairs (groupIdx [itemA, itemB] pri))).flatten = [(0, 1)] := rfl
  rw [hpairs]
  simp only [List.foldl_cons, List.foldl_nil]
  unfold spreadPair
  have hlt : distSq itemA itemB < threshold ^ 2 := by
    unfold distSq threshold itemA itemB
    norm_num
  simp only [List.get?_cons_zero, List.get?_cons_succ]
  rw [if_pos hlt]
  rfl

/-- C7: on the spec's example pair (distance ≈ 0.014 < 0.3), for every angle
the displacement strictly increases the pair's distance (toward the 0.3
target) and both items stay within `[1, 5]`, both right after the
displacement and after the full pass. -/
theorem spread_example_separates (s c : ℚ) (hsc : s ^ 2 + c ^ 2 = 1)
    (er : Nat → ℚ) (her : ∀ n, 0 ≤ er n ∧ er n < 1) :
    (∃ B2 : PriorityItem,
      (spreadGroups (fun _ => (s, c)) [itemA, itemB]).1 = [itemA, B2]
      ∧ distSq itemA itemB < distSq itemA B2
      ∧ 1 ≤ B2.impact ∧ B2.impact ≤ 5 ∧ 1 ≤ B2.effort ∧ B2.effort ≤ 5)
    ∧ (∀ p ∈ spreadPriorityMatrix (fun _ => (s, c)) er [itemA, itemB],
        1 ≤ p.impact ∧ p.impact ≤ 5 ∧ 1 ≤ p.effort ∧ p.effort ≤ 5) := by
  have hs1 : -1 ≤ s := by nlinarith [sq_nonneg c, sq_nonneg (s + 1)]
  have hs2 : s ≤ 1 := by nlinarith [sq_nonneg c, sq_nonneg (s - 1)]
  have hc1 : -1 ≤ c := by nlinarith [sq_nonneg s, sq_nonneg (c + 1)]
  have hc2 : c ≤ 1 := by nlinarith [sq_nonneg s, sq_nonneg (c - 1)]
  have himp : clamp15 (itemB.impact + s * (threshold / 2))
      = itemB.impact + s * (threshold / 2) := by
    apply clamp15_eq_self <;> unfold itemB threshold <;> dsimp only <;> nlinarith
  have heff : clamp15 (itemB.effort + c * (threshold / 2))
      = itemB.effort + c * (threshold / 2) := by
    apply clamp15_eq_self <;> unfold itemB threshold <;> dsimp only <;> nlinarith
  constructor
  · refine ⟨{ itemB with
        impact := clamp15 (itemB.impact + s * (threshold / 2)),
        effort := clamp15 (itemB.effort + c * (threshold / 2)) },
      ?_, ?_, ?_, ?_, ?_, ?_⟩
    · rw [spreadGroups_example s c]
    · show distSq itemA itemB < distSq itemA _
      unfold distSq
      dsimp only
      rw [himp, heff]
      unfold itemA itemB threshold
      dsimp only
      nlinarith [hsc, hs1, hs2, hc1, hc2]
    · exact (clamp15_bounds _).1
    · exact (clamp15_bounds _).2
    · exact (clamp15_bounds _).1
    · exact (clamp15_bounds _).2
  · intro p hp
    exact edgePass_fold_pred er
      (fun q => 1 ≤ q.impact ∧ q.impact ≤ 5 ∧ 1 ≤ q.effort ∧ q.effort ≤ 5)
      (fun item m => by
        obtain ⟨⟨hi1, hi5, -⟩, he1, he5, -⟩ := edgeFix_spec er her item m
        exact ⟨hi1, hi5, he1, he5⟩)
      (spreadGroups (fun _ => (s, c)) [itemA, itemB]).1 ([], 0)
      (by intro q hq; cases hq) p hp

/-- Witness for C7 at the rational unit-circle angle `(3/5, 4/5)` and a
constant edge stream. -/
theorem spread_example_separates_witness :
    (∃ B2 : PriorityItem,
      (spreadGroups angUnit [itemA, itemB]).1 = [itemA, B2]
      ∧ distSq itemA itemB < distSq itemA B2
      ∧ 1 ≤ B2.impact ∧ B2.impact ≤ 5 ∧ 1 ≤ B2.effort ∧ B2.effort ≤ 5)
    ∧ (∀ p ∈ spreadPriorityMatrix angUnit erHalf [itemA, itemB],
        1 ≤ p.impact ∧ p.impact ≤ 5 ∧ 1 ≤ p.effort ∧ p.effort ≤ 5) :=
  spread_example_separates (3/5) (4/5) (by norm_num) erHalf
    (fun n => by unfold erHalf; norm_num)
